import Mathlib

/-!
Verification development for the docker-image-version-matrix action.

The definitions below are a shallow embedding of the TypeScript sources
(`src/version-filter.ts`, `src/docker-registry.ts`, `src/config.ts`,
`src/main.ts`, `src/types.ts`).  JavaScript `Record` values become
association lists with object-spread semantics, optional fields become
`Option`, thrown errors become `Except String`, and `Array.prototype.sort`
(stable since ES2019) is embedded as a stable insertion sort over the
source's comparator.  The relevant behaviour of the external `semver`
npm package (`coerce`, `valid`, `satisfies` on caret ranges and
`||`-alternatives) is modelled from that package's documented semantics,
since the repository's logic depends on it.
-/

/-- One Docker tag: a name plus an optional last-updated timestamp
(`DockerTag` in `src/types.ts`). -/
structure DockerTag where
  name : String
  lastUpdated : Option String
deriving DecidableEq, Repr

/-- The three version-selection strategies (`'latest' | 'all' | 'semver'`). -/
inductive Strategy where
  | latest
  | all
  | semver
deriving DecidableEq, Repr

/-- JavaScript truthiness of an optional string: `undefined` and `""` are
falsy, every other string is truthy. -/
def isTruthyStr : Option String → Bool
  | none => false
  | some s => !s.data.isEmpty

/-- Numeric value of a list of decimal digit characters. -/
def digitsToNat (cs : List Char) : Nat :=
  cs.foldl (fun a c => a * 10 + (c.toNat - 48)) 0

/-- Gregorian leap-year test. -/
def isLeapYear (y : Nat) : Bool :=
  (y % 4 == 0 && y % 100 != 0) || y % 400 == 0

/-- Number of days in a month of the Gregorian calendar. -/
def daysInMonth (y m : Nat) : Nat :=
  if m = 2 then (if isLeapYear y then 29 else 28)
  else if m = 4 ∨ m = 6 ∨ m = 9 ∨ m = 11 then 30
  else 31

/-- Days in years `1 .. y-1` of the proleptic Gregorian calendar. -/
def daysBeforeYear (y : Nat) : Nat :=
  365 * (y - 1) + (y - 1) / 4 - (y - 1) / 100 + (y - 1) / 400

/-- Days in the months of year `y` strictly before month `m`. -/
def daysBeforeMonth (y m : Nat) : Nat :=
  ((List.range (m - 1)).map (fun i => daysInMonth y (i + 1))).sum

/-- Days between 1970-01-01 and the given civil date (may be negative). -/
def epochDays (y m d : Nat) : Int :=
  (daysBeforeYear y + daysBeforeMonth y m + (d - 1) : Int) - 719162

/-- Milliseconds within a day for a parsed `HH:MM:SS.mmm` time, with the
range checks ECMAScript applies to ISO time components. -/
def timeMillis (h mi s ms : Nat) : Option Nat :=
  if h ≤ 23 && mi ≤ 59 && s ≤ 59 then
    some (h * 3600000 + mi * 60000 + s * 1000 + ms)
  else none

/-- Fractional-second digits to milliseconds (extra digits are truncated,
short runs are zero-padded, as V8 does). -/
def parseFrac (cs : List Char) : Option Nat :=
  if cs ≠ [] && cs.all Char.isDigit then
    some (digitsToNat ((cs ++ ['0', '0', '0']).take 3))
  else none

/-- Time-of-day part of an ISO-8601 UTC timestamp (`HH:MMZ`, `HH:MM:SSZ`,
or `HH:MM:SS.cccZ`), in milliseconds.  Forms without a `Z` suffix are
interpreted in local time by ECMAScript and are outside this model. -/
def parseTime : List Char → Option Nat
  | [h1, h2, ':', m1, m2, 'Z'] =>
    if [h1, h2, m1, m2].all Char.isDigit then
      timeMillis (digitsToNat [h1, h2]) (digitsToNat [m1, m2]) 0 0
    else none
  | [h1, h2, ':', m1, m2, ':', s1, s2, 'Z'] =>
    if [h1, h2, m1, m2, s1, s2].all Char.isDigit then
      timeMillis (digitsToNat [h1, h2]) (digitsToNat [m1, m2]) (digitsToNat [s1, s2]) 0
    else none
  | h1 :: h2 :: ':' :: m1 :: m2 :: ':' :: s1 :: s2 :: '.' :: rest =>
    if rest.getLast? = some 'Z' && [h1, h2, m1, m2, s1, s2].all Char.isDigit then
      match parseFrac rest.dropLast with
      | some ms =>
        timeMillis (digitsToNat [h1, h2]) (digitsToNat [m1, m2]) (digitsToNat [s1, s2]) ms
      | none => none
    else none
  | _ => none

/-- `Date.parse` on the ISO-8601 UTC subset (`YYYY-MM-DD`, optionally
followed by `T` and a `Z`-suffixed time): milliseconds since the Unix
epoch.  Strings outside this subset yield `none`, which the comparator
below treats like the `NaN` the sort comparator would produce. -/
def jsDateParse (s : String) : Option Int :=
  match s.data with
  | y1 :: y2 :: y3 :: y4 :: '-' :: mo1 :: mo2 :: '-' :: d1 :: d2 :: rest =>
    if [y1, y2, y3, y4, mo1, mo2, d1, d2].all Char.isDigit then
      let y := digitsToNat [y1, y2, y3, y4]
      let mo := digitsToNat [mo1, mo2]
      let d := digitsToNat [d1, d2]
      if 1 ≤ mo && mo ≤ 12 && 1 ≤ d && d ≤ daysInMonth y mo then
        match rest with
        | [] => some (epochDays y mo d * 86400000)
        | 'T' :: timeCs =>
          match parseTime timeCs with
          | some ms => some (epochDays y mo d * 86400000 + ms)
          | none => none
        | _ => none
      else none
    else none
  | _ => none

/-- The sort comparator shared by `getLatestVersions`
(`src/version-filter.ts`) and `getLatestTag` (`src/docker-registry.ts`):
`0` when either side lacks a (truthy) timestamp, otherwise
`getTime(b) - getTime(a)`; an unparseable date gives `NaN`, which the
sort treats as `0`. -/
def tagCompare (a b : DockerTag) : Int :=
  if !(isTruthyStr a.lastUpdated) || !(isTruthyStr b.lastUpdated) then 0
  else
    match jsDateParse (b.lastUpdated.getD ""), jsDateParse (a.lastUpdated.getD "") with
    | some tb, some ta => tb - ta
    | _, _ => 0

/-- `tagCompare a b ≤ 0`: `a` may stay before `b` under the comparator. -/
def tagLe (a b : DockerTag) : Bool :=
  tagCompare a b ≤ 0

/-- Insert an element into an already-sorted list, keeping it before the
first element it compares `≤` to (the earlier-in-input element wins ties,
which is exactly stable-sort behaviour). -/
def orderedInsertTag (x : DockerTag) : List DockerTag → List DockerTag
  | [] => [x]
  | y :: ys => if tagLe x y then x :: y :: ys else y :: orderedInsertTag x ys

/-- Stable sort with `tagCompare`, embedding `[...tags].sort((a, b) => ...)`
(ES2019 guarantees `Array.prototype.sort` is stable). -/
def jsStableSort : List DockerTag → List DockerTag
  | [] => []
  | x :: xs => orderedInsertTag x (jsStableSort xs)

/-- The timestamp a tag effectively carries in the comparator: `none` when
the field is missing, empty (falsy), or unparseable. -/
def tagTime (t : DockerTag) : Option Int :=
  match t.lastUpdated with
  | none => none
  | some s => if s.data.isEmpty then none else jsDateParse s

/-- Character class `[\w.]` of the classifier regex (`\w` is ASCII
`[A-Za-z0-9_]` in JavaScript). -/
def isWordOrDot (c : Char) : Bool :=
  c.isAlphanum || c = '_' || c = '.'

/-- Consume an optional `(\.\d+)` group: when the input starts with `.`
followed by a digit, drop the dot and the whole digit run. -/
def matchDotDigits : List Char → List Char
  | '.' :: c :: rest => if c.isDigit then rest.dropWhile Char.isDigit else '.' :: c :: rest
  | cs => cs

/-- Recognizer for the anchored classifier regex
`^v?\d+(\.\d+)?(\.\d+)?(-[\w.]+)?$` of `filterSemanticVersionTags`. -/
def semverRegexTest (s : String) : Bool :=
  let cs := s.data
  let cs := match cs with
    | 'v' :: rest => rest
    | other => other
  match cs with
  | c :: rest =>
    if c.isDigit then
      let cs := rest.dropWhile Char.isDigit
      let cs := matchDotDigits cs
      let cs := matchDotDigits cs
      match cs with
      | [] => true
      | '-' :: suffixCs => !suffixCs.isEmpty && suffixCs.all isWordOrDot
      | _ => false
    else false
  | [] => false

/-- `filterSemanticVersionTags` (`src/docker-registry.ts`): keep a tag when
the regex matches the part of its name before the first `-`
(`tag.name.split('-')[0]`), or the full name. -/
def filterSemanticVersionTags (tags : List DockerTag) : List DockerTag :=
  tags.filter fun tag =>
    let cleaned : String := ⟨tag.name.data.takeWhile (· ≠ '-')⟩
    semverRegexTest cleaned || semverRegexTest tag.name

/-- `Number.MAX_SAFE_INTEGER`, the bound node-semver places on version
components. -/
def maxSafeInteger : Nat := 9007199254740991

/-- One scan step of the node-semver `COERCE` regular expression
`(^|[^\d])(\d{1,16})(?:\.(\d{1,16}))?(?:\.(\d{1,16}))?($|[^\d])`: find the
first digit run of at most 16 digits starting at a non-digit boundary and
read up to two further dot-separated runs.  A run longer than 16 digits
cannot be matched at any offset and is skipped whole. -/
def coerceScanAux : Nat → List Char → Option (Nat × Nat × Nat)
  | 0, _ => none
  | _, [] => none
  | fuel + 1, c :: rest =>
    if c.isDigit then
      let run := c :: rest.takeWhile Char.isDigit
      let after := rest.dropWhile Char.isDigit
      if run.length ≤ 16 then
        let major := digitsToNat run
        let (minor, after2) :=
          match after with
          | '.' :: c2 :: rest2 =>
            if c2.isDigit then
              let run2 := c2 :: rest2.takeWhile Char.isDigit
              if run2.length ≤ 16 then (digitsToNat run2, rest2.dropWhile Char.isDigit)
              else (0, after)
            else (0, after)
          | _ => (0, after)
        let patch :=
          match after2 with
          | '.' :: c3 :: rest3 =>
            if c3.isDigit then
              let run3 := c3 :: rest3.takeWhile Char.isDigit
              if run3.length ≤ 16 then digitsToNat run3 else 0
            else 0
          | _ => 0
        some (major, minor, patch)
      else coerceScanAux fuel after
    else coerceScanAux fuel rest

/-- The `COERCE` scan at fuel equal to the input length (the fuel bounds
the number of characters consumed, so it never runs out). -/
def coerceScan (cs : List Char) : Option (Nat × Nat × Nat) :=
  coerceScanAux cs.length cs

/-- `semver.coerce`: extract the first loose `major(.minor(.patch)?)?`
occurrence, fill missing components with zero, drop everything else
(including any prerelease suffix) and format the result; `none` when no
digits are found or a component exceeds `MAX_SAFE_INTEGER`. -/
def jsCoerce (s : String) : Option String :=
  match coerceScan s.data with
  | none => none
  | some (major, minor, patch) =>
    if major ≤ maxSafeInteger && minor ≤ maxSafeInteger && patch ≤ maxSafeInteger then
      some s!"{major}.{minor}.{patch}"
    else none

/-- `cleanVersionString` (`src/version-filter.ts`): strip a leading `v`,
then return `semver.coerce`'s result when coercion succeeds, otherwise the
stripped string. -/
def cleanVersionString (version : String) : String :=
  let cleaned := match version.data with
    | 'v' :: rest => (⟨rest⟩ : String)
    | _ => version
  match jsCoerce cleaned with
  | some coerced => coerced
  | none => cleaned

/-- A prerelease identifier: numeric identifiers compare numerically and
before alphanumeric ones, which compare as ASCII strings. -/
inductive PreId where
  | num (n : Nat)
  | str (s : String)
deriving DecidableEq, Repr

/-- A parsed strict semantic version (build metadata is validated by the
parser but ignored for comparison, as in node-semver). -/
structure SemVer where
  major : Nat
  minor : Nat
  patch : Nat
  prerelease : List PreId
deriving DecidableEq, Repr

/-- Split a character list at the first occurrence of `sep`:
`(before, some after)` or `(cs, none)` when absent. -/
def splitFirst (sep : Char) : List Char → List Char × Option (List Char)
  | [] => ([], none)
  | c :: rest =>
    if c = sep then ([], some rest)
    else
      let (pre, post) := splitFirst sep rest
      (c :: pre, post)

/-- JavaScript's ASCII whitespace (sufficient for the range strings the
repository handles; `trim` additionally strips Unicode space, which never
occurs here). -/
def isJsWhitespace (c : Char) : Bool :=
  c = ' ' || c = '\t' || c = '\n' || c = '\r'

/-- `String.prototype.trim` on a character list. -/
def trimCs (cs : List Char) : List Char :=
  ((cs.dropWhile isJsWhitespace).reverse.dropWhile isJsWhitespace).reverse

/-- `split(sep)` with a one-character separator, keeping empty segments
exactly as JavaScript does. -/
def splitOnChar (sep : Char) : List Char → List (List Char)
  | [] => [[]]
  | c :: rest =>
    if c = sep then [] :: splitOnChar sep rest
    else
      match splitOnChar sep rest with
      | cur :: others => (c :: cur) :: others
      | [] => [[c]]

/-- `split('||')`: scan left to right, breaking at each non-overlapping
occurrence of the two-character separator. -/
def splitOnPipePipe : List Char → List (List Char)
  | [] => [[]]
  | '|' :: '|' :: rest => [] :: splitOnPipePipe rest
  | c :: rest =>
    match splitOnPipePipe rest with
    | cur :: others => (c :: cur) :: others
    | [] => [[c]]

/-- `Array.prototype.join(sep)` on character lists. -/
def intercalateCs (sep : List Char) : List (List Char) → List Char
  | [] => []
  | [x] => x
  | x :: xs => x ++ sep ++ intercalateCs sep xs

/-- Strict numeric identifier `0|[1-9]\d*`, bounded by
`MAX_SAFE_INTEGER`. -/
def parseNumericId (cs : List Char) : Option Nat :=
  match cs with
  | [] => none
  | ['0'] => some 0
  | c :: rest =>
    if c.isDigit && c ≠ '0' && rest.all Char.isDigit then
      let n := digitsToNat cs
      if n ≤ maxSafeInteger then some n else none
    else none

/-- Character class `[0-9A-Za-z-]` of semver prerelease/build
identifiers. -/
def isIdentChar (c : Char) : Bool :=
  c.isAlphanum || c = '-'

/-- One prerelease identifier: `0|[1-9]\d*` (numeric) or
`\d*[a-zA-Z-][a-zA-Z0-9-]*` (alphanumeric). -/
def parsePreId (cs : List Char) : Option PreId :=
  if cs.isEmpty || !cs.all isIdentChar then none
  else if cs.all Char.isDigit then
    (parseNumericId cs).map PreId.num
  else some (PreId.str ⟨cs⟩)

/-- Dot-separated prerelease identifiers. -/
def parsePrerelease (cs : List Char) : Option (List PreId) :=
  ((splitOnChar '.' cs).map parsePreId).mapM id

/-- Dot-separated build metadata identifiers (`[0-9a-zA-Z-]+` each);
accepted and discarded. -/
def buildMetaOk (cs : List Char) : Bool :=
  ((splitOnChar '.' cs).map (fun part =>
    !part.isEmpty && part.all isIdentChar)).all id

/-- `semver.parse` / `semver.valid` on the strict grammar
`MAJOR.MINOR.PATCH[-PRERELEASE][+BUILD]`: `some` exactly when the string
is valid strict semver. -/
def semverParse (s : String) : Option SemVer :=
  let (mainCs, buildCs) := splitFirst '+' s.data
  if (match buildCs with | some b => !(buildMetaOk b) | none => false) then none
  else
    let (verCs, preCs) := splitFirst '-' mainCs
    match (splitOnChar '.' verCs).map parseNumericId with
    | [some major, some minor, some patch] =>
      match preCs with
      | none => some ⟨major, minor, patch, []⟩
      | some pre =>
        match parsePrerelease pre with
        | some ids => if ids.isEmpty then none else some ⟨major, minor, patch, ids⟩
        | none => none
    | _ => none

/-- Ordering of prerelease identifiers: numeric before alphanumeric,
numeric vs numeric by value, alphanumeric vs alphanumeric as ASCII. -/
def preIdCompare : PreId → PreId → Ordering
  | .num a, .num b => compare a b
  | .num _, .str _ => .lt
  | .str _, .num _ => .gt
  | .str a, .str b => compare a b

/-- Lexicographic ordering of prerelease identifier lists; a shorter list
that is a prefix of a longer one compares lower. -/
def preListCompare : List PreId → List PreId → Ordering
  | [], [] => .eq
  | [], _ :: _ => .lt
  | _ :: _, [] => .gt
  | a :: as', b :: bs =>
    match preIdCompare a b with
    | .eq => preListCompare as' bs
    | o => o

/-- `semver.compare`: major, minor, patch numerically, then a release
sorts above any prerelease of the same triple, then prerelease
identifiers. -/
def semverCompare (a b : SemVer) : Ordering :=
  match compare a.major b.major with
  | .eq =>
    match compare a.minor b.minor with
    | .eq =>
      match compare a.patch b.patch with
      | .eq =>
        match a.prerelease, b.prerelease with
        | [], [] => .eq
        | [], _ :: _ => .gt
        | _ :: _, [] => .lt
        | pa, pb => preListCompare pa pb
      | o => o
    | o => o
  | o => o

/-- Comparator operators produced by caret desugaring. -/
inductive CompOp where
  | ge
  | lt
deriving DecidableEq, Repr

/-- One comparator of a range alternative: the empty comparator (`''`,
which matches any non-prerelease version) or an operator applied to a
version. -/
inductive Comp where
  | any
  | cmp (op : CompOp) (ver : SemVer)
deriving DecidableEq, Repr

/-- Caret desugaring of node-semver: `^M` → `>=M.0.0 <(M+1).0.0-0`,
`^M.m` / `^M.m.p` keep the leftmost nonzero component fixed. -/
def caretDesugar (major : Nat) (minor patch : Option Nat) (pre : List PreId) : List Comp :=
  match minor, patch with
  | none, _ => [.cmp .ge ⟨major, 0, 0, []⟩, .cmp .lt ⟨major + 1, 0, 0, [.num 0]⟩]
  | some mi, none =>
    if major = 0 then [.cmp .ge ⟨0, mi, 0, []⟩, .cmp .lt ⟨0, mi + 1, 0, [.num 0]⟩]
    else [.cmp .ge ⟨major, mi, 0, []⟩, .cmp .lt ⟨major + 1, 0, 0, [.num 0]⟩]
  | some mi, some pa =>
    if major = 0 then
      if mi = 0 then [.cmp .ge ⟨0, 0, pa, pre⟩, .cmp .lt ⟨0, 0, pa + 1, [.num 0]⟩]
      else [.cmp .ge ⟨0, mi, pa, pre⟩, .cmp .lt ⟨0, mi + 1, 0, [.num 0]⟩]
    else [.cmp .ge ⟨major, mi, pa, pre⟩, .cmp .lt ⟨major + 1, 0, 0, [.num 0]⟩]

/-- A partial version `M(.m(.p(-pre)?)?)?` as written after `^`. -/
def parsePartial (s : String) : Option (Nat × Option Nat × Option Nat × List PreId) :=
  let (verCs, preCs) := splitFirst '-' s.data
  let comps := (splitOnChar '.' verCs).map parseNumericId
  match comps, preCs with
  | [some major], none => some (major, none, none, [])
  | [some major, some minor], none => some (major, some minor, none, [])
  | [some major, some minor, some patch], none => some (major, some minor, some patch, [])
  | [some major, some minor, some patch], some pre =>
    match parsePrerelease pre with
    | some ids => if ids.isEmpty then none else some (major, some minor, some patch, ids)
    | none => none
  | _, _ => none

/-- One `||`-alternative of a range: the empty string is the match-all
comparator; a caret expression desugars to two comparators.  Range
syntaxes the repository never exercises (bare comparators, hyphen ranges,
x-ranges, ...) are outside this model and parse to `none`, which
`semverSatisfies` treats as the thrown `Invalid SemVer Range`. -/
def parseAlt : List Char → Option (List Comp)
  | [] => some [Comp.any]
  | '^' :: rest =>
    (parsePartial ⟨rest⟩).map (fun (major, minor, patch, pre) =>
      caretDesugar major minor patch pre)
  | _ => none

/-- `new Range(range)`: split on `||`, trim each alternative, parse all of
them; any invalid alternative makes the whole range invalid. -/
def rangeParse (range : String) : Option (List (List Comp)) :=
  ((splitOnPipePipe range.data).map (fun r => parseAlt (trimCs r))).mapM id

/-- Test of a single comparator against a version. -/
def compTest (c : Comp) (v : SemVer) : Bool :=
  match c with
  | .any => true
  | .cmp .ge w => semverCompare v w ≠ .lt
  | .cmp .lt w => semverCompare v w = .lt

/-- Test of one comparator set: all comparators must hold, and a
prerelease version additionally needs some comparator with a prerelease
on the same `[major, minor, patch]` triple. -/
def testSet (comps : List Comp) (v : SemVer) : Bool :=
  comps.all (fun c => compTest c v) &&
  (v.prerelease.isEmpty ||
    comps.any (fun c =>
      match c with
      | .cmp _ w =>
        !w.prerelease.isEmpty && w.major = v.major && w.minor = v.minor && w.patch = v.patch
      | .any => false))

/-- `semver.satisfies(version, range)`: `false` when the range does not
parse (the constructor throw is caught), otherwise true when some
alternative's comparator set accepts the version. -/
def semverSatisfies (v : SemVer) (range : String) : Bool :=
  match rangeParse range with
  | none => false
  | some alts => alts.any (fun comps => testSet comps v)

/-- The filter predicate of `filterBySemverRange`: clean the tag name,
require it to be valid semver (`semver.valid`), then test the range;
range-evaluation errors are caught and count as non-matches. -/
def semverRangePred (range : String) (tag : DockerTag) : Bool :=
  let version := cleanVersionString tag.name
  match semverParse version with
  | none => false
  | some v => semverSatisfies v range

/-- `filterBySemverRange` (`src/version-filter.ts`). -/
def filterBySemverRange (tags : List DockerTag) (range : String) : List DockerTag :=
  tags.filter (semverRangePred range)

/-- `getLatestVersions` (`src/version-filter.ts`): stable-sort by the
comparator, take the first `count` tags. -/
def getLatestVersions (tags : List DockerTag) (count : Nat) : List DockerTag :=
  (jsStableSort tags).take count

/-- `filterVersions` (`src/version-filter.ts`).  The strategy comes
through `config.strategy!`, so `none` models the `undefined` that falls
into the `switch` default branch; the `semver` branch throws when the
range is missing or empty (falsy); a positive `maxVersions` truncates via
`slice(0, maxVersions)`; the surviving tags are mapped to their names. -/
def filterVersions (tags : List DockerTag) (strategy : Option Strategy)
    (semverRange : Option String) (maxVersions : Option Int) :
    Except String (List String) :=
  let filteredE : Except String (List DockerTag) :=
    match strategy with
    | some .latest => .ok (getLatestVersions tags 1)
    | some .all => .ok tags
    | some .semver =>
      match semverRange with
      | some r =>
        if r.data.isEmpty then .error "semverRange is required when strategy is \"semver\""
        else .ok (filterBySemverRange tags r)
      | none => .error "semverRange is required when strategy is \"semver\""
    | none => .error "Invalid strategy: undefined"
  match filteredE with
  | .error e => .error e
  | .ok filtered =>
    let capped :=
      match maxVersions with
      | some m => if m > 0 then filtered.take m.toNat else filtered
      | none => filtered
    .ok (capped.map (·.name))

/-- `parsePipeDelimitedRange` (`src/version-filter.ts`): a string without
`|` is returned unchanged; otherwise split on every single `|`, trim each
segment, and join with the semver OR operator. -/
def parsePipeDelimitedRange (rangeString : String) : String :=
  if !(rangeString.data.contains '|') then rangeString
  else ⟨intercalateCs " || ".data ((splitOnChar '|' rangeString.data).map trimCs)⟩

/-- `getLatestTag` (`src/docker-registry.ts`): `undefined` on an empty
list, otherwise the head of the stable sort by most-recent
`lastUpdated`. -/
def getLatestTag (tags : List DockerTag) : Option DockerTag :=
  if tags.length = 0 then none
  else (jsStableSort tags).head?

/-- `BuildConfig` (`src/types.ts`): all fields optional; `buildArgs` is a
JavaScript object embedded as an ordered association list. -/
structure BuildConfig where
  name : Option String
  dockerfilePath : Option String
  contextPath : Option String
  buildArgs : Option (List (String × String))
  tags : Option (List String)
deriving DecidableEq, Repr

/-- `BaseImageVersionerConfig` (`src/types.ts`). -/
structure BaseImageVersionerConfig where
  strategy : Option Strategy
  semverRange : Option String
  maxVersions : Option Int
  builds : Option (List BuildConfig)
deriving DecidableEq, Repr

/-- `MatrixEntry` (`src/types.ts`). -/
structure MatrixEntry where
  version : String
  name : String
  dockerfilePath : String
  contextPath : String
  buildArgs : List (String × String)
  tags : List String
deriving DecidableEq, Repr

/-- JavaScript `a || d` on an optional string: the default wins when the
field is `undefined` or the empty string (both falsy). -/
def jsOrStr (v : Option String) (d : String) : String :=
  match v with
  | some s => if s.data.isEmpty then d else s
  | none => d

/-- Property write on a JavaScript object: an existing key keeps its
position and gets the new value, a new key is appended. -/
def jsObjSet : List (String × String) → String → String → List (String × String)
  | [], k, v => [(k, v)]
  | p :: rest, k, v => if p.1 = k then (k, v) :: rest else p :: jsObjSet rest k v

/-- Property read on a JavaScript object (first matching key). -/
def jsObjGet : List (String × String) → String → Option String
  | [], _ => none
  | p :: rest, k => if p.1 = k then some p.2 else jsObjGet rest k

/-- Object-spread merge `{ ...base, ...updates }` restricted to the shape
the source uses: start from the literal's earlier properties and write
every update in order, so later-spread keys override earlier ones. -/
def jsObjMerge (base updates : List (String × String)) : List (String × String) :=
  updates.foldl (fun acc p => jsObjSet acc p.1 p.2) base

/-- `tag.replace(pat, repl)` with a string pattern: replace only the first
occurrence.  (`GetSubstitution`'s `$`-escapes in the replacement are out
of modelled scope; Docker tag names cannot contain `$`.) -/
def jsReplaceFirstAux (pat repl : List Char) : List Char → List Char
  | [] => if pat.isEmpty then repl else []
  | c :: rest =>
    if pat.isPrefixOf (c :: rest) then repl ++ (c :: rest).drop pat.length
    else c :: jsReplaceFirstAux pat repl rest

/-- String wrapper for `jsReplaceFirstAux`. -/
def jsReplaceFirst (s pat repl : String) : String :=
  ⟨jsReplaceFirstAux pat.data repl.data s.data⟩

/-- Index of the first occurrence of `pat` in a character list, used to
characterise `jsReplaceFirst`. -/
def firstOccIdx (pat : List Char) : List Char → Option Nat
  | [] => if pat.isEmpty then some 0 else none
  | c :: rest =>
    if pat.isPrefixOf (c :: rest) then some 0
    else (firstOccIdx pat rest).map (· + 1)

/-- The matrix entry constructed in `buildMatrix`'s inner loop
(`src/main.ts`): defaults for missing fields, the two injected build
arguments overridable by the BuildConfig's own `buildArgs` spread after
them, and `{version}` substituted (first occurrence only) in each tag
template. -/
def mkMatrixEntry (version : String) (build : BuildConfig) (baseImage : String) : MatrixEntry :=
  { version := version
    name := jsOrStr build.name "default"
    dockerfilePath := jsOrStr build.dockerfilePath "Dockerfile"
    contextPath := jsOrStr build.contextPath "."
    buildArgs := jsObjMerge [("BASE_IMAGE_VERSION", version), ("BASE_IMAGE", baseImage)]
      (build.buildArgs.getD [])
    tags := (build.tags.getD ["{version}"]).map (fun tag => jsReplaceFirst tag "{version}" version) }

/-- `buildMatrix` (`src/main.ts`): outer loop over versions, inner loop
over `config.builds || []`, pushing one entry per pair. -/
def buildMatrix (versions : List String) (config : BaseImageVersionerConfig)
    (baseImage : String) : List MatrixEntry :=
  versions.foldl (fun matrix version =>
      (config.builds.getD []).foldl
        (fun matrix build => matrix ++ [mkMatrixEntry version build baseImage]) matrix)
    []

/-- `getDefaultConfig` (`src/config.ts`). -/
def getDefaultConfig : BaseImageVersionerConfig :=
  { strategy := some .latest
    semverRange := none
    maxVersions := none
    builds := some [{ name := some "default"
                      dockerfilePath := some "Dockerfile"
                      contextPath := some "."
                      buildArgs := some []
                      tags := some ["{version}", "latest"] }] }

/-- Name of a strategy as the raw configuration string. -/
def strategyName : Strategy → String
  | .latest => "latest"
  | .all => "all"
  | .semver => "semver"

/-- `validateAndNormalizeConfig` (`src/config.ts`): default the strategy
to `latest`, check it against the allowed names, require a truthy
`semverRange` for the `semver` strategy, reject any `maxVersions < 1`,
fall back to the default builds when none are given, and normalize every
build's fields. -/
def validateAndNormalizeConfig (config : BaseImageVersionerConfig) :
    Except String BaseImageVersionerConfig :=
  let strategy := config.strategy.getD .latest
  if !(["latest", "all", "semver"].contains (strategyName strategy)) then
    .error s!"Invalid strategy: {strategyName strategy}. Must be one of: latest, all, semver"
  else if strategy = .semver && !(isTruthyStr config.semverRange) then
    .error "semverRange is required when strategy is \"semver\""
  else if config.maxVersions.any (fun m => m < 1) then
    .error "maxVersions must be greater than 0"
  else
    let builds0 := config.builds.getD []
    let builds1 := if builds0.isEmpty then getDefaultConfig.builds.getD [] else builds0
    let builds2 := builds1.enum.map (fun p =>
      ({ name := some (jsOrStr p.2.name s!"build-{p.1}")
         dockerfilePath := some (jsOrStr p.2.dockerfilePath "Dockerfile")
         contextPath := some (jsOrStr p.2.contextPath ".")
         buildArgs := some (p.2.buildArgs.getD [])
         tags := some (p.2.tags.getD ["{version}"]) } : BuildConfig))
    .ok { strategy := some strategy
          semverRange := config.semverRange
          maxVersions := config.maxVersions
          builds := some builds2 }

/-- The decision core of `run` (`src/main.ts`) after input reading,
configuration loading and tag fetching (thin I/O glue, out of scope):
fail on an empty tag list, fall back to the single latest raw tag when no
tag classifies as a semantic version, otherwise rewrite a pipe-delimited
range (for the semver strategy with a truthy range), filter, fail on an
empty selection, and build the matrix. -/
def runPipeline (allTags : List DockerTag) (config : BaseImageVersionerConfig)
    (baseImage : String) : Except String (List MatrixEntry) :=
  if allTags.length = 0 then .error s!"No tags found for Docker image: {baseImage}"
  else
    let semverTags := filterSemanticVersionTags allTags
    if semverTags.length = 0 then
      match getLatestTag allTags with
      | none => .error "No tags available"
      | some latest => .ok (buildMatrix [latest.name] config baseImage)
    else
      let semverRange :=
        if config.strategy = some .semver && isTruthyStr config.semverRange then
          config.semverRange.map parsePipeDelimitedRange
        else config.semverRange
      match filterVersions semverTags config.strategy semverRange config.maxVersions with
      | .error e => .error e
      | .ok selectedVersions =>
        if selectedVersions.length = 0 then .error "No versions matched the specified criteria"
        else .ok (buildMatrix selectedVersions config baseImage)

/-- The effective sort key of a dated tag, for stating maximality. -/
def tagKey (t : DockerTag) : Int :=
  (tagTime t).getD 0

theorem length_orderedInsertTag (x : DockerTag) (l : List DockerTag) :
    (orderedInsertTag x l).length = l.length + 1 := by
  induction l with
  | nil => rfl
  | cons y ys ih =>
    simp only [orderedInsertTag]
    split
    · simp
    · simp [ih]

theorem mem_orderedInsertTag {a x : DockerTag} {l : List DockerTag} :
    a ∈ orderedInsertTag x l ↔ a = x ∨ a ∈ l := by
  induction l with
  | nil => simp [orderedInsertTag]
  | cons y ys ih =>
    simp only [orderedInsertTag]
    split
    · simp [List.mem_cons]
    · simp [List.mem_cons, ih]
      tauto

theorem length_jsStableSort (l : List DockerTag) :
    (jsStableSort l).length = l.length := by
  induction l with
  | nil => rfl
  | cons x xs ih => simp [jsStableSort, length_orderedInsertTag, ih]

theorem mem_jsStableSort {a : DockerTag} {l : List DockerTag} :
    a ∈ jsStableSort l ↔ a ∈ l := by
  induction l with
  | nil => simp [jsStableSort]
  | cons x xs ih => simp [jsStableSort, mem_orderedInsertTag, ih, List.mem_cons]

theorem tagTime_some {t : DockerTag} {k : Int} (h : tagTime t = some k) :
    ∃ s, t.lastUpdated = some s ∧ s.data.isEmpty = false ∧ jsDateParse s = some k := by
  unfold tagTime at h
  rcases hL : t.lastUpdated with _ | s <;> rw [hL] at h
  · simp at h
  · by_cases he : s.data.isEmpty
    · simp [he] at h
    · exact ⟨s, rfl, by simpa using he, by simpa [he] using h⟩

theorem tagCompare_of_times {a b : DockerTag} {ka kb : Int}
    (ha : tagTime a = some ka) (hb : tagTime b = some kb) :
    tagCompare a b = kb - ka := by
  obtain ⟨sa, hLa, hea, hpa⟩ := tagTime_some ha
  obtain ⟨sb, hLb, heb, hpb⟩ := tagTime_some hb
  unfold tagCompare
  rw [hLa, hLb]
  simp [isTruthyStr, hea, heb, hpa, hpb]

theorem tagLe_iff_of_times {a b : DockerTag} {ka kb : Int}
    (ha : tagTime a = some ka) (hb : tagTime b = some kb) :
    tagLe a b = true ↔ kb ≤ ka := by
  unfold tagLe
  rw [tagCompare_of_times ha hb]
  simp

theorem pairwise_orderedInsertTag {x : DockerTag} {l : List DockerTag} {kx : Int}
    (hx : tagTime x = some kx) (hl : ∀ t ∈ l, (tagTime t).isSome)
    (hp : List.Pairwise (fun a b => tagKey b ≤ tagKey a) l) :
    List.Pairwise (fun a b => tagKey b ≤ tagKey a) (orderedInsertTag x l) := by
  induction l with
  | nil => simp [orderedInsertTag]
  | cons y ys ih =>
    obtain ⟨ky, hy⟩ := Option.isSome_iff_exists.mp (hl y (by simp))
    have hkx : tagKey x = kx := by simp [tagKey, hx]
    have hky : tagKey y = ky := by simp [tagKey, hy]
    rw [List.pairwise_cons] at hp
    simp only [orderedInsertTag]
    split
    · rename_i hle
      have hyx : ky ≤ kx := (tagLe_iff_of_times hx hy).mp hle
      rw [List.pairwise_cons]
      constructor
      · intro b hb
        rcases List.mem_cons.mp hb with rfl | hb
        · rw [hkx, hky]; exact hyx
        · rw [hkx]
          calc tagKey b ≤ tagKey y := hp.1 b hb
            _ = ky := hky
            _ ≤ kx := hyx
      · exact List.pairwise_cons.mpr hp
    · rename_i hnle
      have hxy : kx ≤ ky := by
        have := (tagLe_iff_of_times hx hy).not.mp (by simpa using hnle)
        omega
      rw [List.pairwise_cons]
      constructor
      · intro b hb
        rcases mem_orderedInsertTag.mp hb with rfl | hb
        · rw [hkx, hky]; exact hxy
        · exact hp.1 b hb
      · exact ih (fun t ht => hl t (by simp [ht])) hp.2

theorem pairwise_jsStableSort {l : List DockerTag}
    (hl : ∀ t ∈ l, (tagTime t).isSome) :
    List.Pairwise (fun a b => tagKey b ≤ tagKey a) (jsStableSort l) := by
  induction l with
  | nil => simp [jsStableSort]
  | cons x xs ih =>
    obtain ⟨kx, hx⟩ := Option.isSome_iff_exists.mp (hl x (by simp))
    exact pairwise_orderedInsertTag hx
      (fun t ht => hl t (by simp [mem_jsStableSort.mp ht]))
      (ih (fun t ht => hl t (by simp [ht])))

theorem headMax_jsStableSort {l : List DockerTag} {h : DockerTag} {rest : List DockerTag}
    (hl : ∀ t ∈ l, (tagTime t).isSome) (hs : jsStableSort l = h :: rest) :
    ∀ t ∈ l, tagKey t ≤ tagKey h := by
  intro t ht
  have hmem : t ∈ jsStableSort l := mem_jsStableSort.mpr ht
  rw [hs] at hmem
  rcases List.mem_cons.mp hmem with rfl | hmem
  · exact le_refl _
  · have hp := pairwise_jsStableSort hl
    rw [hs, List.pairwise_cons] at hp
    exact hp.1 t hmem

theorem tagLe_of_untruthy {a b : DockerTag}
    (ha : isTruthyStr a.lastUpdated = false) : tagLe a b = true := by
  unfold tagLe tagCompare
  rw [ha]
  simp

theorem jsStableSort_of_untruthy {l : List DockerTag}
    (hl : ∀ t ∈ l, isTruthyStr t.lastUpdated = false) : jsStableSort l = l := by
  induction l with
  | nil => rfl
  | cons x xs ih =>
    have hrec : jsStableSort xs = xs := ih (fun t ht => hl t (by simp [ht]))
    simp only [jsStableSort, hrec]
    match xs with
    | [] => rfl
    | y :: ys =>
      simp only [orderedInsertTag]
      rw [tagLe_of_untruthy (hl x (by simp))]
      simp

theorem jsObjGet_set_same (obj : List (String × String)) (k v : String) :
    jsObjGet (jsObjSet obj k v) k = some v := by
  induction obj with
  | nil => simp [jsObjSet, jsObjGet]
  | cons p rest ih =>
    simp only [jsObjSet]
    split
    · simp [jsObjGet]
    · rename_i hne
      simp [jsObjGet, hne, ih]

theorem jsObjGet_set_other (obj : List (String × String)) (k v k' : String)
    (hne : k' ≠ k) : jsObjGet (jsObjSet obj k v) k' = jsObjGet obj k' := by
  have hne' : k ≠ k' := Ne.symm hne
  induction obj with
  | nil => simp [jsObjSet, jsObjGet, hne']
  | cons p rest ih =>
    simp only [jsObjSet]
    split
    · rename_i hk
      simp [jsObjGet, hne', hk]
    · simp only [jsObjGet, ih]

theorem jsObjGet_none_of_not_mem (obj : List (String × String)) (k : String)
    (h : k ∉ obj.map Prod.fst) : jsObjGet obj k = none := by
  induction obj with
  | nil => rfl
  | cons p rest ih =>
    simp only [List.map_cons, List.mem_cons] at h
    push_neg at h
    simp [jsObjGet, Ne.symm h.1, ih h.2]

theorem jsObjGet_merge (base updates : List (String × String)) (k : String)
    (hnd : (updates.map Prod.fst).Nodup) :
    jsObjGet (jsObjMerge base updates) k = (jsObjGet updates k).or (jsObjGet base k) := by
  induction updates generalizing base with
  | nil => simp [jsObjMerge, jsObjGet]
  | cons p rest ih =>
    simp only [List.map_cons, List.nodup_cons] at hnd
    have step : jsObjMerge base (p :: rest) = jsObjMerge (jsObjSet base p.1 p.2) rest := rfl
    rw [step, ih _ hnd.2]
    by_cases hk : p.1 = k
    · subst hk
      rw [jsObjGet_set_same]
      rw [jsObjGet_none_of_not_mem rest p.1 hnd.1]
      simp [jsObjGet]
    · rw [jsObjGet_set_other _ _ _ _ (Ne.symm hk)]
      simp [jsObjGet, hk]

theorem jsObjGet_merge_isSome (base updates : List (String × String)) (k : String)
    (h : (jsObjGet base k).isSome) : (jsObjGet (jsObjMerge base updates) k).isSome := by
  induction updates generalizing base with
  | nil => exact h
  | cons p rest ih =>
    have step : jsObjMerge base (p :: rest) = jsObjMerge (jsObjSet base p.1 p.2) rest := rfl
    rw [step]
    apply ih
    by_cases hk : p.1 = k
    · subst hk; rw [jsObjGet_set_same]; rfl
    · rw [jsObjGet_set_other _ _ _ _ (Ne.symm hk)]; exact h

theorem jsReplaceFirstAux_eq (pat repl s : List Char) :
    jsReplaceFirstAux pat repl s =
      match firstOccIdx pat s with
      | none => s
      | some i => s.take i ++ repl ++ s.drop (i + pat.length) := by
  induction s with
  | nil =>
    simp only [jsReplaceFirstAux, firstOccIdx]
    split
    · rename_i he
      simp_all [List.isEmpty_iff]
    · rename_i he
      simp_all [List.isEmpty_iff]
  | cons c rest ih =>
    simp only [jsReplaceFirstAux, firstOccIdx]
    split
    · rename_i hpre
      simp
    · rename_i hpre
      rw [ih]
      cases hocc : firstOccIdx pat rest with
      | none => simp
      | some i => simp [List.take_succ_cons, List.drop_succ_cons, Nat.add_right_comm]

theorem foldl_push_eq_append_map {α β : Type} (f : α → β) (l : List α) (acc : List β) :
    l.foldl (fun m b => m ++ [f b]) acc = acc ++ l.map f := by
  induction l generalizing acc with
  | nil => simp
  | cons b bs ih => simp [List.foldl_cons, ih]

theorem buildMatrix_eq_flatMap (versions : List String) (config : BaseImageVersionerConfig)
    (baseImage : String) :
    buildMatrix versions config baseImage =
      versions.flatMap (fun v => (config.builds.getD []).map (fun b => mkMatrixEntry v b baseImage)) := by
  unfold buildMatrix
  suffices h : ∀ acc : List MatrixEntry,
      versions.foldl (fun matrix version =>
        (config.builds.getD []).foldl
          (fun matrix build => matrix ++ [mkMatrixEntry version build baseImage]) matrix) acc =
      acc ++ versions.flatMap (fun v => (config.builds.getD []).map (fun b => mkMatrixEntry v b baseImage)) by
    simpa using h []
  induction versions with
  | nil => simp
  | cons v vs ih =>
    intro acc
    simp only [List.foldl_cons, List.flatMap_cons]
    rw [foldl_push_eq_append_map, ih, List.append_assoc]

theorem buildMatrix_length (versions : List String) (config : BaseImageVersionerConfig)
    (baseImage : String) :
    (buildMatrix versions config baseImage).length =
      versions.length * (config.builds.getD []).length := by
  rw [buildMatrix_eq_flatMap]
  induction versions with
  | nil => simp
  | cons v vs ih => simp [List.flatMap_cons, ih, Nat.succ_mul, Nat.add_comm]

/-- C8: the version classifier (split the raw name at the first hyphen;
the acceptance pattern must match either the pre-hyphen fragment or the
full raw name) accepts each of `"1"`, `"1.2"`, `"1.2.3"`, `"v1.2.3"`,
`"1.2.3-alpine"` and rejects each of `"latest"`, `"alpine"`, `"slim"`. -/
theorem classifier_examples :
    filterSemanticVersionTags
      [⟨"1", none⟩, ⟨"1.2", none⟩, ⟨"1.2.3", none⟩, ⟨"v1.2.3", none⟩, ⟨"1.2.3-alpine", none⟩,
       ⟨"latest", none⟩, ⟨"alpine", none⟩, ⟨"slim", none⟩] =
      [⟨"1", none⟩, ⟨"1.2", none⟩, ⟨"1.2.3", none⟩, ⟨"v1.2.3", none⟩, ⟨"1.2.3-alpine", none⟩] ∧
    [("1" : String), "1.2", "1.2.3", "v1.2.3", "1.2.3-alpine"].all semverRegexTest = true ∧
    [("latest" : String), "alpine", "slim"].any semverRegexTest = false := by
  refine ⟨by decide, by decide, by decide⟩

/-- C10: `parsePipeDelimitedRange` treats every single `|` as a
separator, so `"^1||^2"` gains an empty middle segment and becomes
`"^1 ||  || ^2"` instead of being left unchanged, while a string without
any `|` is returned unchanged. -/
theorem parsePipeDelimitedRange_spec :
    parsePipeDelimitedRange "^1||^2" = "^1 ||  || ^2" ∧
    parsePipeDelimitedRange "^1|^2" = "^1 || ^2" ∧
    (∀ s : String, s.data.contains '|' = false → parsePipeDelimitedRange s = s) := by
  refine ⟨by decide, by decide, ?_⟩
  intro s hs
  unfold parsePipeDelimitedRange
  simp only [hs]
  rfl

/-- C10 witness: a pipe-free range is returned unchanged. -/
theorem parsePipeDelimitedRange_spec_witness :
    ("^3.1" : String).data.contains '|' = false ∧ parsePipeDelimitedRange "^3.1" = "^3.1" :=
  ⟨by decide, parsePipeDelimitedRange_spec.2.2 "^3.1" (by decide)⟩

/-- C2 counterexample: normalization does not leave `"1.2.3-alpine"`
unchanged — `semver.coerce` drops the prerelease suffix, so
`cleanVersionString "1.2.3-alpine"` is `"1.2.3"`. -/
theorem cleanVersionString_drops_prerelease :
    cleanVersionString "1.2.3-alpine" = "1.2.3" ∧ ("1.2.3" : String) ≠ "1.2.3-alpine" :=
  ⟨by decide, by decide⟩

/-- C2 (amended): normalization strips a leading `v` and coerces the
remainder to strict `MAJOR.MINOR.PATCH`, filling missing minor/patch with
zero (`"1"` → `"1.0.0"`, `"1.2"` → `"1.2.0"`) and dropping any
prerelease/suffix (`"1.2.3-alpine"` → `"1.2.3"`); a 3-component core is
otherwise preserved. -/
theorem cleanVersionString_normalization :
    (∀ cs : List Char, cleanVersionString ⟨'v' :: cs⟩ =
      match jsCoerce ⟨cs⟩ with
      | some coerced => coerced
      | none => (⟨cs⟩ : String)) ∧
    cleanVersionString "1" = "1.0.0" ∧ cleanVersionString "1.2" = "1.2.0" ∧
    cleanVersionString "1.2.3" = "1.2.3" ∧ cleanVersionString "v1.2.3" = "1.2.3" ∧
    cleanVersionString "1.2.3-alpine" = "1.2.3" :=
  ⟨fun _ => rfl, by decide, by decide, by decide, by decide, by decide⟩

/-- C4: the matrix builder emits exactly one entry per
(version, BuildConfig) pair — the output is the nested flat-map, outer
over versions, inner over builds, so entries of one version are
contiguous — and its length is the product of the two lengths. -/
theorem buildMatrix_cartesian :
    ∀ (versions : List String) (config : BaseImageVersionerConfig) (baseImage : String),
      buildMatrix versions config baseImage =
        versions.flatMap (fun v =>
          (config.builds.getD []).map (fun b => mkMatrixEntry v b baseImage)) ∧
      (buildMatrix versions config baseImage).length =
        versions.length * (config.builds.getD []).length :=
  fun versions config baseImage =>
    ⟨buildMatrix_eq_flatMap versions config baseImage,
     buildMatrix_length versions config baseImage⟩

/-- C5: tag-template substitution replaces only the first occurrence of
the literal `{version}` placeholder (a template without the placeholder
is unchanged; everything past the first occurrence, including further
placeholders, is copied verbatim); for tags
`["{version}", "latest"]` and version `"2.3.0"` the output tags are
exactly `["2.3.0", "latest"]`. -/
theorem tagTemplate_substitution :
    (∀ template version : String,
      firstOccIdx "{version}".data template.data = none →
        jsReplaceFirst template "{version}" version = template) ∧
    (∀ (template version : String) (i : Nat),
      firstOccIdx "{version}".data template.data = some i →
        jsReplaceFirst template "{version}" version =
          ⟨template.data.take i ++ version.data ++ template.data.drop (i + 9)⟩) ∧
    (buildMatrix ["2.3.0"] getDefaultConfig "verdaccio/verdaccio").map (·.tags) =
      [["2.3.0", "latest"]] ∧
    jsReplaceFirst "{version}-{version}" "{version}" "2.3.0" = "2.3.0-{version}" := by
  refine ⟨?_, ?_, by decide, by decide⟩
  · intro template version h
    unfold jsReplaceFirst
    rw [jsReplaceFirstAux_eq, h]
  · intro template version i h
    unfold jsReplaceFirst
    rw [jsReplaceFirstAux_eq, h]
    rfl

/-- C5 witness: instances of the two implications at concrete inputs. -/
theorem tagTemplate_substitution_witness :
    (firstOccIdx "{version}".data "latest".data = none ∧
      jsReplaceFirst "latest" "{version}" "9.9.9" = "latest") ∧
    (firstOccIdx "{version}".data "x{version}y".data = some 1 ∧
      jsReplaceFirst "x{version}y" "{version}" "7" =
        ⟨"x{version}y".data.take 1 ++ "7".data ++ "x{version}y".data.drop 10⟩) :=
  ⟨⟨by decide, tagTemplate_substitution.1 "latest" "9.9.9" (by decide)⟩,
   ⟨by decide, tagTemplate_substitution.2.1 "x{version}y" "7" 1 (by decide)⟩⟩

theorem jsStableSort_eq_nil_iff {l : List DockerTag} : jsStableSort l = [] ↔ l = [] := by
  constructor
  · intro h
    have hlen := length_jsStableSort l
    rw [h] at hlen
    exact List.length_eq_zero.mp hlen.symm
  · rintro rfl
    rfl

theorem filterVersions_cap (tags : List DockerTag) (strategy : Option Strategy)
    (r : Option String) (m : Int) :
    filterVersions tags strategy r (some m) =
      Except.map (fun l => if m > 0 then l.take m.toNat else l)
        (filterVersions tags strategy r none) := by
  have hok : ∀ f : List DockerTag,
      (Except.ok ((if m > 0 then f.take m.toNat else f).map (·.name)) :
          Except String (List String)) =
        Except.map (fun l => if m > 0 then l.take m.toNat else l) (.ok (f.map (·.name))) := by
    intro f
    simp only [Except.map]
    by_cases hm : m > 0 <;> simp [hm, List.map_take]
  rcases strategy with _ | st
  · rfl
  rcases st
  · exact hok (getLatestVersions tags 1)
  · exact hok tags
  · rcases r with _ | rs
    · rfl
    · by_cases he : rs.data.isEmpty
      · simp only [filterVersions, he]
        rfl
      · simpa only [filterVersions, he, Bool.false_eq_true, if_false]
          using hok (filterBySemverRange tags rs)

theorem validate_reaches_maxVersions_check (config : BaseImageVersionerConfig) (m : Int)
    (hm : config.maxVersions = some m) (hlt : m < 1)
    (hsem : config.strategy.getD .latest = .semver → isTruthyStr config.semverRange = true) :
    validateAndNormalizeConfig config = .error "maxVersions must be greater than 0" := by
  unfold validateAndNormalizeConfig
  have h1 : (["latest", "all", "semver"].contains
      (strategyName (config.strategy.getD .latest))) = true := by
    cases config.strategy.getD .latest <;> rfl
  have h2 : (decide (config.strategy.getD .latest = Strategy.semver) &&
      !(isTruthyStr config.semverRange)) = false := by
    by_cases hst : config.strategy.getD .latest = Strategy.semver
    · simp [hst, hsem hst]
    · simp [hst]
  have h3 : config.maxVersions.any (fun m => decide (m < 1)) = true := by
    rw [hm]
    simpa using hlt
  simp [h1, h2, h3]
  intro hA hB hC
  cases hst : config.strategy.getD Strategy.latest <;>
    simp [hst, strategyName] at hA hB hC

theorem validate_errors_on_bad_maxVersions (config : BaseImageVersionerConfig) (m : Int)
    (hm : config.maxVersions = some m) (hlt : m < 1) :
    ∃ msg, validateAndNormalizeConfig config = .error msg := by
  by_cases hsem : config.strategy.getD .latest = .semver ∧ isTruthyStr config.semverRange = false
  · refine ⟨"semverRange is required when strategy is \"semver\"", ?_⟩
    unfold validateAndNormalizeConfig
    have h1 : (["latest", "all", "semver"].contains
        (strategyName (config.strategy.getD .latest))) = true := by
      cases config.strategy.getD .latest <;> rfl
    have h2 : (decide (config.strategy.getD .latest = Strategy.semver) &&
        !(isTruthyStr config.semverRange)) = true := by
      simp [hsem.1, hsem.2]
    simp [h1, h2]
    intro hA hB hC
    cases hst : config.strategy.getD Strategy.latest <;>
      simp [hst, strategyName] at hA hB hC
  · refine ⟨"maxVersions must be greater than 0", ?_⟩
    apply validate_reaches_maxVersions_check config m hm hlt
    intro hst
    rcases Bool.eq_false_or_eq_true (isTruthyStr config.semverRange) with hf | ht
    · exact hf
    · exact absurd ⟨hst, ht⟩ hsem

/-- C1 counterexample: `maxVersions: 0` does not simply "impose no cap" —
configuration validation rejects it with exactly the same error as `-1`,
so the claim's distinction between `0` (no cap) and `-1` (validation
error) does not hold at the configuration boundary. -/
theorem maxVersions_zero_is_config_error :
    validateAndNormalizeConfig
      { strategy := some .latest, semverRange := none, maxVersions := some 0, builds := some [] } =
      .error "maxVersions must be greater than 0" := by rfl

/-- C1 (amended): a positive `maxVersions` truncates the strategy-filtered
result to at most `maxVersions` leading elements in strategy order; a
missing `maxVersions` imposes no cap, and `filterVersions` itself also
applies no cap for any non-positive value; but configuration validation
rejects every `maxVersions < 1` — both `-1` and `0` — as a configuration
error (never silently ignored), reaching the distinguished
`maxVersions` error message whenever the earlier `semverRange` check
passes. -/
theorem maxVersions_semantics :
    (∀ (tags : List DockerTag) (strategy : Option Strategy) (r : Option String) (m : Int),
      0 < m →
      filterVersions tags strategy r (some m) =
        Except.map (fun l => l.take m.toNat) (filterVersions tags strategy r none)) ∧
    (∀ (tags : List DockerTag) (strategy : Option Strategy) (r : Option String) (m : Int)
        (l : List String), 0 < m →
      filterVersions tags strategy r (some m) = .ok l → l.length ≤ m.toNat) ∧
    (∀ (tags : List DockerTag) (strategy : Option Strategy) (r : Option String) (m : Int),
      m ≤ 0 →
      filterVersions tags strategy r (some m) = filterVersions tags strategy r none) ∧
    (∀ (config : BaseImageVersionerConfig) (m : Int),
      config.maxVersions = some m → m < 1 →
      ∃ msg, validateAndNormalizeConfig config = .error msg) ∧
    (∀ (config : BaseImageVersionerConfig) (m : Int),
      config.maxVersions = some m → m < 1 →
      (config.strategy.getD .latest = .semver → isTruthyStr config.semverRange = true) →
      validateAndNormalizeConfig config = .error "maxVersions must be greater than 0") := by
  refine ⟨?_, ?_, ?_, validate_errors_on_bad_maxVersions, validate_reaches_maxVersions_check⟩
  · intro tags strategy r m hm
    rw [filterVersions_cap]
    have hfun : (fun l : List String => if m > 0 then l.take m.toNat else l) =
        fun l : List String => l.take m.toNat := funext fun l => if_pos hm
    rw [hfun]
  · intro tags strategy r m l hm hE
    rw [filterVersions_cap] at hE
    cases hN : filterVersions tags strategy r none with
    | error e => rw [hN] at hE; exact absurd hE (by simp [Except.map])
    | ok l0 =>
      rw [hN] at hE
      simp only [Except.map, Except.ok.injEq] at hE
      rw [← hE]
      simp [hm, List.length_take]
  · intro tags strategy r m hm
    rw [filterVersions_cap]
    have hfun : (fun l : List String => if m > 0 then l.take m.toNat else l) =
        fun l : List String => l := funext fun l => if_neg (by omega)
    rw [hfun]
    cases filterVersions tags strategy r none <;> rfl

/-- C1 witness: the cap and the validation error at concrete inputs. -/
theorem maxVersions_semantics_witness :
    ((0 : Int) < 2 ∧
      filterVersions [⟨"a", none⟩, ⟨"b", none⟩, ⟨"c", none⟩] (some .all) none (some 2) =
        Except.map (fun l => l.take (2 : Int).toNat)
          (filterVersions [⟨"a", none⟩, ⟨"b", none⟩, ⟨"c", none⟩] (some .all) none none)) ∧
    (({ strategy := some .latest, semverRange := none, maxVersions := some (-1),
        builds := some [] } : BaseImageVersionerConfig).maxVersions = some (-1) ∧ (-1 : Int) < 1 ∧
      ∃ msg, validateAndNormalizeConfig
        { strategy := some .latest, semverRange := none, maxVersions := some (-1),
          builds := some [] } = .error msg) :=
  ⟨⟨by decide,
    maxVersions_semantics.1 [⟨"a", none⟩, ⟨"b", none⟩, ⟨"c", none⟩] (some .all) none 2 (by decide)⟩,
   ⟨rfl, by decide,
    maxVersions_semantics.2.2.2.1 _ (-1) rfl (by decide)⟩⟩

/-- C3: every produced matrix entry's `buildArgs` is exactly the two
injected bindings `BASE_IMAGE_VERSION ↦ version`, `BASE_IMAGE ↦ baseImage`
merged with the BuildConfig's own `buildArgs`; both injected keys are
always present, and on a key collision the BuildConfig's value wins over
the injected one (lookup prefers the BuildConfig binding). -/
theorem buildArgs_precedence :
    ∀ (version baseImage : String) (build : BuildConfig),
      (mkMatrixEntry version build baseImage).buildArgs =
        jsObjMerge [("BASE_IMAGE_VERSION", version), ("BASE_IMAGE", baseImage)]
          (build.buildArgs.getD []) ∧
      (jsObjGet (mkMatrixEntry version build baseImage).buildArgs "BASE_IMAGE_VERSION").isSome ∧
      (jsObjGet (mkMatrixEntry version build baseImage).buildArgs "BASE_IMAGE").isSome ∧
      (((build.buildArgs.getD []).map Prod.fst).Nodup →
        ∀ k, jsObjGet (mkMatrixEntry version build baseImage).buildArgs k =
          ((jsObjGet (build.buildArgs.getD []) k).or
            (jsObjGet [("BASE_IMAGE_VERSION", version), ("BASE_IMAGE", baseImage)] k))) := by
  intro version baseImage build
  refine ⟨rfl, ?_, ?_, ?_⟩
  · apply jsObjGet_merge_isSome
    simp [jsObjGet]
  · apply jsObjGet_merge_isSome
    simp [jsObjGet]
  · intro hnd k
    exact jsObjGet_merge _ _ k hnd

/-- C3 witness: a BuildConfig that collides on `BASE_IMAGE` wins the
merge. -/
theorem buildArgs_precedence_witness :
    ((([("BASE_IMAGE", "custom"), ("VARIANT", "alpine")] :
        List (String × String)).map Prod.fst).Nodup ∧
      ∀ k, jsObjGet (mkMatrixEntry "1.0"
          ⟨some "alpine", none, none, some [("BASE_IMAGE", "custom"), ("VARIANT", "alpine")], none⟩
          "node").buildArgs k =
        ((jsObjGet [("BASE_IMAGE", "custom"), ("VARIANT", "alpine")] k).or
          (jsObjGet [("BASE_IMAGE_VERSION", "1.0"), ("BASE_IMAGE", "node")] k))) :=
  ⟨by decide,
   (buildArgs_precedence "1.0" "node"
     ⟨some "alpine", none, none, some [("BASE_IMAGE", "custom"), ("VARIANT", "alpine")], none⟩).2.2.2
     (by decide)⟩

/-- C6: the `latest` strategy maps the head of the stable sort by
`lastUpdated` descending, so it returns at most one version name,
returns zero exactly on empty input, preserves the original order between
any tags the comparator cannot separate (all comparisons `0` leaves the
list untouched), and — when every tag carries a parseable timestamp —
selects a tag of maximal `lastUpdated`. -/
theorem latestStrategy_spec :
    (∀ tags : List DockerTag,
      filterVersions tags (some .latest) none none =
        .ok (((jsStableSort tags).take 1).map (·.name))) ∧
    (∀ (tags : List DockerTag) (l : List String),
      filterVersions tags (some .latest) none none = .ok l →
        l.length ≤ 1 ∧ (l = [] ↔ tags = [])) ∧
    (∀ tags : List DockerTag, (∀ t ∈ tags, (tagTime t).isSome) →
      ∀ t₀ ∈ getLatestVersions tags 1, ∀ t ∈ tags, tagKey t ≤ tagKey t₀) ∧
    (∀ tags : List DockerTag, (∀ t ∈ tags, isTruthyStr t.lastUpdated = false) →
      jsStableSort tags = tags) := by
  refine ⟨fun tags => rfl, ?_, ?_, fun tags h => jsStableSort_of_untruthy h⟩
  · intro tags l hE
    have h0 : filterVersions tags (some .latest) none none =
        .ok (((jsStableSort tags).take 1).map (·.name)) := rfl
    rw [h0] at hE
    injection hE with hE
    subst hE
    constructor
    · simp [List.length_take]
    · rw [List.map_eq_nil_iff, List.take_eq_nil_iff]
      constructor
      · rintro (h1 | h2)
        · exact absurd h1 one_ne_zero
        · exact jsStableSort_eq_nil_iff.mp h2
      · rintro rfl
        right
        rfl
  · intro tags hl t₀ ht₀ t ht
    unfold getLatestVersions at ht₀
    cases hs : jsStableSort tags with
    | nil => rw [hs] at ht₀; simp at ht₀
    | cons hd rest =>
      rw [hs] at ht₀
      simp [List.take] at ht₀
      subst ht₀
      exact headMax_jsStableSort hl hs t ht

/-- C6 witness: on two dated tags the selected tag has the maximal
timestamp. -/
theorem latestStrategy_spec_witness :
    (∀ t ∈ [(⟨"a", some "2024-01-01"⟩ : DockerTag), ⟨"b", some "2024-06-01"⟩],
      (tagTime t).isSome) ∧
    ∀ t₀ ∈ getLatestVersions [(⟨"a", some "2024-01-01"⟩ : DockerTag), ⟨"b", some "2024-06-01"⟩] 1,
      ∀ t ∈ [(⟨"a", some "2024-01-01"⟩ : DockerTag), ⟨"b", some "2024-06-01"⟩],
        tagKey t ≤ tagKey t₀ :=
  ⟨by decide, latestStrategy_spec.2.2.1 _ (by decide)⟩

theorem semverRangePred_pipe_union (t : DockerTag) :
    semverRangePred "^1 || ^2" t = (semverRangePred "^1" t || semverRangePred "^2" t) := by
  simp only [semverRangePred]
  cases hv : semverParse (cleanVersionString t.name) with
  | none => rfl
  | some v =>
    have h12 : rangeParse "^1 || ^2" =
        some [[Comp.cmp .ge ⟨1, 0, 0, []⟩, Comp.cmp .lt ⟨2, 0, 0, [PreId.num 0]⟩],
              [Comp.cmp .ge ⟨2, 0, 0, []⟩, Comp.cmp .lt ⟨3, 0, 0, [PreId.num 0]⟩]] := by rfl
    have h1 : rangeParse "^1" =
        some [[Comp.cmp .ge ⟨1, 0, 0, []⟩, Comp.cmp .lt ⟨2, 0, 0, [PreId.num 0]⟩]] := by rfl
    have h2 : rangeParse "^2" =
        some [[Comp.cmp .ge ⟨2, 0, 0, []⟩, Comp.cmp .lt ⟨3, 0, 0, [PreId.num 0]⟩]] := by rfl
    simp [semverSatisfies, h12, h1, h2]

/-- C7: selecting with the pipe-delimited range `"^1|^2"` (rewritten by
`parsePipeDelimitedRange` before testing) yields exactly the union of the
sets selected by running the semver strategy separately with `"^1"` and
with `"^2"`. -/
theorem pipeRange_union :
    ∀ tags : List DockerTag,
      filterVersions tags (some .semver) (some (parsePipeDelimitedRange "^1|^2")) none =
        .ok ((filterBySemverRange tags "^1 || ^2").map (·.name)) ∧
      filterVersions tags (some .semver) (some "^1") none =
        .ok ((filterBySemverRange tags "^1").map (·.name)) ∧
      filterVersions tags (some .semver) (some "^2") none =
        .ok ((filterBySemverRange tags "^2").map (·.name)) ∧
      ∀ nm : String,
        nm ∈ (filterBySemverRange tags "^1 || ^2").map (·.name) ↔
          (nm ∈ (filterBySemverRange tags "^1").map (·.name) ∨
           nm ∈ (filterBySemverRange tags "^2").map (·.name)) := by
  intro tags
  have hp : parsePipeDelimitedRange "^1|^2" = "^1 || ^2" := by decide
  refine ⟨by rw [hp]; rfl, rfl, rfl, ?_⟩
  intro nm
  simp only [filterBySemverRange, List.mem_map, List.mem_filter]
  constructor
  · rintro ⟨t, ⟨ht, hpred⟩, rfl⟩
    rw [semverRangePred_pipe_union] at hpred
    rcases Bool.or_eq_true_iff.mp hpred with h1 | h2
    · exact Or.inl ⟨t, ⟨ht, h1⟩, rfl⟩
    · exact Or.inr ⟨t, ⟨ht, h2⟩, rfl⟩
  · rintro (⟨t, ⟨ht, hpred⟩, rfl⟩ | ⟨t, ⟨ht, hpred⟩, rfl⟩) <;>
      exact ⟨t, ⟨ht, by rw [semverRangePred_pipe_union]; simp [hpred]⟩, rfl⟩

/-- C7 witness: the union property at a concrete tag list. -/
theorem pipeRange_union_witness :
    ("1.4.0" ∈ (filterBySemverRange
        [(⟨"1.4.0", none⟩ : DockerTag), ⟨"2.2.0", none⟩, ⟨"3.0.0", none⟩] "^1 || ^2").map (·.name) ↔
      ("1.4.0" ∈ (filterBySemverRange
          [(⟨"1.4.0", none⟩ : DockerTag), ⟨"2.2.0", none⟩, ⟨"3.0.0", none⟩] "^1").map (·.name) ∨
       "1.4.0" ∈ (filterBySemverRange
          [(⟨"1.4.0", none⟩ : DockerTag), ⟨"2.2.0", none⟩, ⟨"3.0.0", none⟩] "^2").map (·.name))) :=
  (pipeRange_union [⟨"1.4.0", none⟩, ⟨"2.2.0", none⟩, ⟨"3.0.0", none⟩]).2.2.2 "1.4.0"

/-- C9: when the tag list is non-empty but no tag classifies as a
semantic version, the run does not fail: it selects the single
most-recently-updated raw tag from the unfiltered list (bypassing
strategy and range logic), emits exactly one matrix entry per
BuildConfig, every entry carrying that tag's name as its version, and —
when all tags carry parseable timestamps — the selected tag's timestamp
is maximal; concretely, for raw tags `rc`/`stable` dated
2024-01-01/2024-06-01 the fallback selects `"stable"`. -/
theorem fallback_behavior :
    (∀ (allTags : List DockerTag) (config : BaseImageVersionerConfig) (baseImage : String),
      allTags ≠ [] → filterSemanticVersionTags allTags = [] →
      ∃ latest, getLatestTag allTags = some latest ∧
        runPipeline allTags config baseImage = .ok (buildMatrix [latest.name] config baseImage) ∧
        (buildMatrix [latest.name] config baseImage).length = (config.builds.getD []).length ∧
        (∀ e ∈ buildMatrix [latest.name] config baseImage, e.version = latest.name) ∧
        ((∀ t ∈ allTags, (tagTime t).isSome) → ∀ t ∈ allTags, tagKey t ≤ tagKey latest)) ∧
    getLatestTag [⟨"rc", some "2024-01-01"⟩, ⟨"stable", some "2024-06-01"⟩] =
      some ⟨"stable", some "2024-06-01"⟩ := by
  refine ⟨?_, by rfl⟩
  intro allTags config baseImage hne hempty
  have hlen : ¬(allTags.length = 0) := fun h => hne (List.length_eq_zero.mp h)
  cases hs : jsStableSort allTags with
  | nil => exact absurd (jsStableSort_eq_nil_iff.mp hs) hne
  | cons hd rest =>
    have hglt : getLatestTag allTags = some hd := by
      unfold getLatestTag
      rw [if_neg hlen, hs]
      rfl
    refine ⟨hd, hglt, ?_, ?_, ?_, ?_⟩
    · unfold runPipeline
      rw [if_neg hlen, hempty]
      simp only [List.length_nil, if_true]
      rw [hglt]
    · rw [buildMatrix_length]
      simp
    · intro e he
      rw [buildMatrix_eq_flatMap] at he
      simp only [List.mem_flatMap, List.mem_map, List.mem_singleton] at he
      obtain ⟨v, hv, b, _, rfl⟩ := he
      rw [hv]
      rfl
    · intro hall t ht
      exact headMax_jsStableSort hall hs t ht

/-- C9 witness: the fallback on the concrete `rc`/`stable` tag list. -/
theorem fallback_behavior_witness :
    ∃ latest,
      getLatestTag [(⟨"rc", some "2024-01-01"⟩ : DockerTag), ⟨"stable", some "2024-06-01"⟩] =
        some latest ∧
      runPipeline [⟨"rc", some "2024-01-01"⟩, ⟨"stable", some "2024-06-01"⟩] getDefaultConfig
          "img" = .ok (buildMatrix [latest.name] getDefaultConfig "img") ∧
      (buildMatrix [latest.name] getDefaultConfig "img").length =
        (getDefaultConfig.builds.getD []).length ∧
      (∀ e ∈ buildMatrix [latest.name] getDefaultConfig "img", e.version = latest.name) ∧
      ((∀ t ∈ [(⟨"rc", some "2024-01-01"⟩ : DockerTag), ⟨"stable", some "2024-06-01"⟩],
          (tagTime t).isSome) →
        ∀ t ∈ [(⟨"rc", some "2024-01-01"⟩ : DockerTag), ⟨"stable", some "2024-06-01"⟩],
          tagKey t ≤ tagKey latest) :=
  fallback_behavior.1 [⟨"rc", some "2024-01-01"⟩, ⟨"stable", some "2024-06-01"⟩]
    getDefaultConfig "img" (by decide) (by decide)
